import Mathlib

/-!
Verification of the tile-based maze viewer/painter (level.js + sketch.js).

The embedding is shallow:
* a grid is a `List (List Int)` of integer tile codes
  (0 = floor, 1 = wall, 2 = start, 3 = goal);
* a `Level` carries the grid, the tile size in pixels, the discovered
  start cell and the set of clicked (painted) tiles;
* pixel coordinates are integers and `Math.floor(x / ts)` is `Int.fdiv`;
* the JavaScript `Set` of clicked tile keys is a `Finset (Int × Int)`
  (the key string "r,c" encodes the pair injectively);
* an array access that can hit a missing row or column returns an
  `Option`, with `none` standing for `undefined` / a thrown TypeError;
* the orchestrator functions of sketch.js that index into the level
  array return `Option` as well, `none` modelling the crash on a bad
  index.
-/

namespace Maze

/-- A maze grid: rows of integer tile codes, as loaded from levels.json. -/
abbrev Grid := List (List Int)

/-- A grid is rectangular when every row has the length of the first row
(the shape of a 2D grid of tiles). -/
def Rect (g : Grid) : Prop := ∀ row ∈ g, row.length = (g.headD []).length

/-- The cell of a grid at row `r`, column `c`; `none` when the row or the
column is missing. -/
def cellAt (g : Grid) (r c : Nat) : Option Int :=
  (g[r]?).bind fun row => row[c]?

/-- Inner loop of `Level.findStart` (level.js): scan columns `c, c+1, ...`
of one row, `fuel` of them, for the first cell holding tile value 2.
An index past the end of the row reads `undefined`, which is not 2. -/
def scanRow (row : List Int) : Nat → Nat → Option Nat
  | _, 0 => none
  | c, fuel + 1 => if row[c]? = some 2 then some c else scanRow row (c + 1) fuel

/-- Outer loop of `Level.findStart`: scan the rows in order, `r0` being the
index of the first row still to scan; each row is scanned over `cols`
columns (`cols` is `this.grid[0].length` in the source). -/
def findStartFrom (cols : Nat) : Grid → Nat → Option (Nat × Nat)
  | [], _ => none
  | row :: rest, r0 =>
    match scanRow row 0 cols with
    | some c => some (r0, c)
    | none => findStartFrom cols rest (r0 + 1)

/-- `Level.findStart` (level.js lines 79–92): scan the entire grid in
row-major order for the tile value 2; `null` when absent. -/
def findStart (g : Grid) : Option (Nat × Nat) :=
  findStartFrom (g.headD []).length g 0

/-- Normalization done by the `Level` constructor: when a start cell was
found, overwrite it with floor (0). -/
def normalizeStart (g : Grid) : Option (Nat × Nat) → Grid
  | some (r, c) => g.set r ((g.getD r []).set c 0)
  | none => g

/-- The state of one `Level` instance (level.js). -/
structure Level where
  grid : Grid
  ts : Int
  start : Option (Nat × Nat)
  clickedTiles : Finset (Int × Int)
deriving DecidableEq

/-- The `Level` constructor: store the grid, discover the start by
scanning for tile value 2, normalize the start cell to floor, and start
with no clicked tiles. -/
def Level.make (g : Grid) (ts : Int) : Level :=
  let s := findStart g
  { grid := normalizeStart g s, ts := ts, start := s, clickedTiles := ∅ }

/-- `Level.rows`: the number of rows of the grid. -/
def Level.rows (l : Level) : Nat := l.grid.length

/-- `Level.cols`: the length of the first row (`this.grid[0].length`). -/
def Level.cols (l : Level) : Nat := (l.grid.headD []).length

/-- `Level.inBounds` (level.js lines 60–62):
`r >= 0 && c >= 0 && r < this.rows() && c < this.cols()`. -/
def Level.inBounds (l : Level) (r c : Int) : Bool :=
  decide (0 ≤ r) && decide (0 ≤ c) &&
    decide (r < (l.rows : Int)) && decide (c < (l.cols : Int))

/-- `Level.tileAt` (level.js lines 64–67): `this.grid[r][c]`; `none` when
the access does not land on a stored cell. -/
def Level.tileAt (l : Level) (r c : Int) : Option Int :=
  if 0 ≤ r ∧ 0 ≤ c then cellAt l.grid r.toNat c.toNat else none

/-- `Level.isWall`: `this.tileAt(r, c) === 1`. -/
def Level.isWall (l : Level) (r c : Int) : Bool := l.tileAt r c == some 1

/-- `Level.isGoal`: `this.tileAt(r, c) === 3`. -/
def Level.isGoal (l : Level) (r c : Int) : Bool := l.tileAt r c == some 3

/-- `Level.handleClick` (level.js lines 94–111): map the pixel coordinate
to a grid cell with `Math.floor`, and when that cell is in bounds toggle
its membership in `clickedTiles`. -/
def Level.handleClick (l : Level) (mouseX mouseY : Int) : Level :=
  let c := Int.fdiv mouseX l.ts
  let r := Int.fdiv mouseY l.ts
  if l.inBounds r c then
    if (r, c) ∈ l.clickedTiles then
      { l with clickedTiles := l.clickedTiles.erase (r, c) }
    else
      { l with clickedTiles := insert (r, c) l.clickedTiles }
  else l

end Maze

namespace Maze

/-- Shared helper: the boolean bounds check unfolded to its arithmetic
meaning. -/
theorem inBounds_iff (l : Level) (r c : Int) :
    l.inBounds r c = true ↔
      (0 ≤ r ∧ r < (l.grid.length : Int)) ∧
      (0 ≤ c ∧ c < ((l.grid.headD []).length : Int)) := by
  simp [Level.inBounds, Level.rows, Level.cols]
  tauto

/-- C5: `inBounds(r, c)` is true exactly when `0 ≤ r < rows()` and
`0 ≤ c < cols()`, with `rows()` the length of the grid and `cols()` the
length of its first row. -/
theorem inBounds_characterization (l : Level) (r c : Int) :
    l.inBounds r c = true ↔
      (0 ≤ r ∧ r < (l.rows : Int)) ∧ (0 ≤ c ∧ c < (l.cols : Int)) ∧
      l.rows = l.grid.length ∧ l.cols = (l.grid.headD []).length := by
  rw [inBounds_iff]
  unfold Level.rows Level.cols
  tauto

/-- Replacing only `clickedTiles` does not change what is in bounds. -/
theorem inBounds_clicked (l : Level) (s : Finset (Int × Int)) (r c : Int) :
    ({ l with clickedTiles := s } : Level).inBounds r c = l.inBounds r c := rfl

/-- Auxiliary: `handleClick` never changes the grid, the tile size or the
start field. -/
theorem handleClick_frame (l : Level) (x y : Int) :
    (l.handleClick x y).grid = l.grid ∧ (l.handleClick x y).ts = l.ts ∧
      (l.handleClick x y).start = l.start := by
  by_cases h : l.inBounds (Int.fdiv y l.ts) (Int.fdiv x l.ts) = true
  · by_cases hm : (Int.fdiv y l.ts, Int.fdiv x l.ts) ∈ l.clickedTiles
    · simp [Level.handleClick, h, hm]
    · simp [Level.handleClick, h, hm]
  · simp [Level.handleClick, h]

/-- C2: clicking the same in-bounds pixel coordinate twice restores
`clickedTiles` to its value before the first click. -/
theorem handleClick_involutive (l : Level) (x y : Int)
    (h : l.inBounds (Int.fdiv y l.ts) (Int.fdiv x l.ts) = true) :
    ((l.handleClick x y).handleClick x y).clickedTiles = l.clickedTiles := by
  by_cases hm : (Int.fdiv y l.ts, Int.fdiv x l.ts) ∈ l.clickedTiles
  · simp [Level.handleClick, h, hm, inBounds_clicked, Finset.mem_erase,
      Finset.insert_erase hm]
  · simp [Level.handleClick, h, hm, inBounds_clicked, Finset.mem_insert,
      Finset.erase_insert hm]

/-- Witness for C2 at a concrete level and click. -/
theorem handleClick_involutive_witness :
    (((Level.make [[0]] 1).handleClick 0 0).handleClick 0 0).clickedTiles =
      (Level.make [[0]] 1).clickedTiles :=
  handleClick_involutive (Level.make [[0]] 1) 0 0 (by decide)

/-- C3: `handleClick(mouseX, mouseY)` targets the cell with column
`floor(mouseX / ts)` and row `floor(mouseY / ts)`: when that cell is in
bounds it toggles exactly that cell's membership in `clickedTiles`
(leaving every other cell's membership and the rest of the state alone),
and when it is out of bounds the whole `Level` state is unchanged. -/
theorem handleClick_targets_floor_cell (l : Level) (x y : Int) :
    (l.inBounds (Int.fdiv y l.ts) (Int.fdiv x l.ts) = true →
      ((Int.fdiv y l.ts, Int.fdiv x l.ts) ∈ (l.handleClick x y).clickedTiles ↔
        (Int.fdiv y l.ts, Int.fdiv x l.ts) ∉ l.clickedTiles) ∧
      (∀ p : Int × Int, p ≠ (Int.fdiv y l.ts, Int.fdiv x l.ts) →
        (p ∈ (l.handleClick x y).clickedTiles ↔ p ∈ l.clickedTiles)) ∧
      (l.handleClick x y).grid = l.grid ∧ (l.handleClick x y).ts = l.ts ∧
      (l.handleClick x y).start = l.start) ∧
    (l.inBounds (Int.fdiv y l.ts) (Int.fdiv x l.ts) = false →
      l.handleClick x y = l) := by
  constructor
  · intro h
    by_cases hm : (Int.fdiv y l.ts, Int.fdiv x l.ts) ∈ l.clickedTiles
    · refine ⟨?_, ?_, ?_, ?_, ?_⟩
      · simp [Level.handleClick, h, hm, Finset.mem_erase]
      · intro p hp
        simp [Level.handleClick, h, hm, Finset.mem_erase, hp]
      · simp [Level.handleClick, h, hm]
      · simp [Level.handleClick, h, hm]
      · simp [Level.handleClick, h, hm]
    · refine ⟨?_, ?_, ?_, ?_, ?_⟩
      · simp [Level.handleClick, h, hm, Finset.mem_insert]
      · intro p hp
        simp [Level.handleClick, h, hm, Finset.mem_insert, hp]
      · simp [Level.handleClick, h, hm]
      · simp [Level.handleClick, h, hm]
      · simp [Level.handleClick, h, hm]
  · intro h
    simp [Level.handleClick, h]

/-- Witness for C3: a concrete in-bounds click toggles the target cell,
and a concrete out-of-bounds click leaves the level unchanged. -/
theorem handleClick_targets_floor_cell_witness :
    (((Int.fdiv 0 1 : Int), (Int.fdiv 0 1 : Int)) ∈
        ((Level.make [[0]] 1).handleClick 0 0).clickedTiles ↔
      ((Int.fdiv 0 1 : Int), (Int.fdiv 0 1 : Int)) ∉
        (Level.make [[0]] 1).clickedTiles) ∧
    (Level.make [[0]] 1).handleClick 99 99 = Level.make [[0]] 1 :=
  ⟨((handleClick_targets_floor_cell (Level.make [[0]] 1) 0 0).1 (by decide)).1,
    (handleClick_targets_floor_cell (Level.make [[0]] 1) 99 99).2 (by decide)⟩

end Maze

namespace Maze

/-- The tile-based player of sketch.js: only its grid cell matters here.
`Player.setCell(r, c)` stores the cell. -/
structure Player where
  r : Int
  c : Int
deriving DecidableEq

/-- The orchestrator state of sketch.js: the built `Level` instances, the
current level index `li` and the player. -/
structure SketchState where
  levels : List Level
  li : Nat
  player : Player

/-- `loadLevel(idx)` (sketch.js lines 73–87): set the current level index,
put the player at the level's start cell when one was discovered and at
the fallback cell (1, 1) otherwise.  `none` models the crash when `idx`
does not name a level. -/
def loadLevel (s : SketchState) (idx : Nat) : Option SketchState :=
  match s.levels[idx]? with
  | none => none
  | some level =>
    let p : Player :=
      match level.start with
      | some rc => { r := (rc.1 : Int), c := (rc.2 : Int) }
      | none => { r := 1, c := 1 }
    some { s with li := idx, player := p }

/-- `nextLevel` (sketch.js lines 89–93): advance to `(li + 1) % levels.length`
and load that level. -/
def nextLevel (s : SketchState) : Option SketchState :=
  loadLevel s ((s.li + 1) % s.levels.length)

/-- C4: whenever `loadLevel(idx)` runs on a valid index, the player ends at
the level's discovered start cell when `level.start` is non-null and at the
fallback cell row 1, column 1 otherwise — and those are the only two
outcomes. -/
theorem loadLevel_places_player (s : SketchState) (idx : Nat) (level : Level)
    (h : s.levels[idx]? = some level) :
    ∃ t, loadLevel s idx = some t ∧
      (∀ r c, level.start = some (r, c) → t.player = ⟨(r : Int), (c : Int)⟩) ∧
      (level.start = none → t.player = ⟨1, 1⟩) ∧
      ((∃ r c, level.start = some (r, c) ∧ t.player = ⟨(r : Int), (c : Int)⟩) ∨
        (level.start = none ∧ t.player = ⟨1, 1⟩)) := by
  match hs : level.start with
  | some (r, c) =>
    refine ⟨{ s with li := idx, player := ⟨(r : Int), (c : Int)⟩ }, ?_, ?_, ?_, ?_⟩
    · simp [loadLevel, h, hs]
    · intro r2 c2 hs2
      cases hs2
      rfl
    · intro hn
      cases hn
    · exact Or.inl ⟨r, c, rfl, rfl⟩
  | none =>
    refine ⟨{ s with li := idx, player := ⟨1, 1⟩ }, ?_, ?_, ?_, ?_⟩
    · simp [loadLevel, h, hs]
    · intro r2 c2 hs2
      cases hs2
    · intro _
      rfl
    · exact Or.inr ⟨rfl, rfl⟩

/-- Witness for C4 at a concrete one-level state whose level has a start. -/
theorem loadLevel_places_player_witness :
    ∃ t, loadLevel ⟨[Level.make [[2]] 1], 0, ⟨7, 7⟩⟩ 0 = some t ∧
      (∀ r c, (Level.make [[2]] 1).start = some (r, c) →
        t.player = ⟨(r : Int), (c : Int)⟩) ∧
      ((Level.make [[2]] 1).start = none → t.player = ⟨1, 1⟩) ∧
      ((∃ r c, (Level.make [[2]] 1).start = some (r, c) ∧
          t.player = ⟨(r : Int), (c : Int)⟩) ∨
        ((Level.make [[2]] 1).start = none ∧ t.player = ⟨1, 1⟩)) :=
  loadLevel_places_player ⟨[Level.make [[2]] 1], 0, ⟨7, 7⟩⟩ 0
    (Level.make [[2]] 1) (by decide)

/-- C7: with at least one level loaded, `nextLevel` sets the active index
to `(li + 1) % levels.length`, which is always a valid index (and is 0 on
the last level). -/
theorem nextLevel_wraps (s : SketchState) (h : 0 < s.levels.length) :
    ∃ t, nextLevel s = some t ∧ t.li = (s.li + 1) % s.levels.length ∧
      t.li < s.levels.length ∧ t.levels = s.levels ∧
      (s.li + 1 = s.levels.length → t.li = 0) := by
  have hlt : (s.li + 1) % s.levels.length < s.levels.length :=
    Nat.mod_lt _ h
  obtain ⟨level, hlevel⟩ :
      ∃ level, s.levels[(s.li + 1) % s.levels.length]? = some level := by
    exact ⟨_, List.getElem?_eq_getElem hlt⟩
  cases hstart : level.start with
  | some rc =>
    refine ⟨{ s with
              li := ((s.li + 1) % s.levels.length),
              player := ⟨(rc.1 : Int), (rc.2 : Int)⟩ }, ?_, rfl, hlt, rfl, ?_⟩
    · simp [nextLevel, loadLevel, hlevel, hstart]
    · intro hlast
      show (s.li + 1) % s.levels.length = 0
      rw [hlast]
      exact Nat.mod_self _
  | none =>
    refine ⟨{ s with
              li := ((s.li + 1) % s.levels.length),
              player := ⟨1, 1⟩ }, ?_, rfl, hlt, rfl, ?_⟩
    · simp [nextLevel, loadLevel, hlevel, hstart]
    · intro hlast
      show (s.li + 1) % s.levels.length = 0
      rw [hlast]
      exact Nat.mod_self _

/-- Witness for C7 on a concrete two-level state sitting on the last
level: the index wraps to 0. -/
theorem nextLevel_wraps_witness :
    ∃ t, nextLevel ⟨[Level.make [[2]] 1, Level.make [[0]] 1], 1, ⟨0, 0⟩⟩ =
        some t ∧
      t.li = (1 + 1) %
        (⟨[Level.make [[2]] 1, Level.make [[0]] 1], 1, ⟨0, 0⟩⟩ :
          SketchState).levels.length ∧
      t.li < (⟨[Level.make [[2]] 1, Level.make [[0]] 1], 1, ⟨0, 0⟩⟩ :
          SketchState).levels.length ∧
      t.levels = [Level.make [[2]] 1, Level.make [[0]] 1] ∧
      (1 + 1 = (⟨[Level.make [[2]] 1, Level.make [[0]] 1], 1, ⟨0, 0⟩⟩ :
          SketchState).levels.length → t.li = 0) :=
  nextLevel_wraps ⟨[Level.make [[2]] 1, Level.make [[0]] 1], 1, ⟨0, 0⟩⟩
    (by decide)

end Maze

namespace Maze

/-- The clicked-tiles invariant: every painted key names an in-bounds
cell of the level's grid. -/
def ClickedInv (l : Level) : Prop :=
  ∀ p ∈ l.clickedTiles, l.inBounds p.1 p.2 = true

/-- `handleClick` does not change which cells are in bounds. -/
theorem handleClick_inBounds (l : Level) (x y r c : Int) :
    (l.handleClick x y).inBounds r c = l.inBounds r c := by
  unfold Level.inBounds Level.rows Level.cols
  rw [(handleClick_frame l x y).1]

/-- C10: `clickedTiles` starts empty at construction (so the invariant
holds), and `handleClick` — the only operation that touches
`clickedTiles` — preserves it, only ever inserting a key for a cell that
`inBounds` accepts. -/
theorem clickedTiles_inBounds_invariant :
    (∀ (g : Grid) (ts : Int), ClickedInv (Level.make g ts)) ∧
    (∀ (l : Level) (x y : Int), ClickedInv l →
      ClickedInv (l.handleClick x y)) := by
  constructor
  · intro g ts p hp
    simp [Level.make] at hp
  · intro l x y hinv
    have hreindex : ∀ p : Int × Int,
        (l.handleClick x y).inBounds p.1 p.2 = l.inBounds p.1 p.2 :=
      fun p => handleClick_inBounds l x y p.1 p.2
    by_cases h : l.inBounds (Int.fdiv y l.ts) (Int.fdiv x l.ts) = true
    · by_cases hm : (Int.fdiv y l.ts, Int.fdiv x l.ts) ∈ l.clickedTiles
      · intro p hp
        rw [hreindex p]
        simp [Level.handleClick, h, hm, Finset.mem_erase] at hp
        exact hinv p hp.2
      · intro p hp
        rw [hreindex p]
        simp [Level.handleClick, h, hm, Finset.mem_insert] at hp
        rcases hp with hp | hp
        · rw [hp]
          exact h
        · exact hinv p hp
    · intro p hp
      rw [hreindex p]
      simp [Level.handleClick, h] at hp
      exact hinv p hp

/-- Witness for C10: the invariant holds on a freshly built level after a
concrete click. -/
theorem clickedTiles_inBounds_invariant_witness :
    ClickedInv ((Level.make [[0]] 1).handleClick 0 0) :=
  clickedTiles_inBounds_invariant.2 (Level.make [[0]] 1) 0 0
    (clickedTiles_inBounds_invariant.1 [[0]] 1)

end Maze

namespace Maze

/-!
Heap model for the aliasing claim about `copyGrid` (sketch.js lines
96–106).  A JavaScript 2D array is an outer array of references to row
arrays.  The heap stores row contents; a row reference is an index into
the store; `copyGrid` allocates a fresh copy of each row, exactly as
`grid.map((row) => row.slice())` does.
-/

/-- The heap of row arrays: `store[ref]` is the row named by `ref`. -/
structure Heap where
  store : List (List Int)
deriving DecidableEq

/-- Reading a row reference. -/
def Heap.read (h : Heap) (ref : Nat) : List Int := h.store.getD ref []

/-- Allocating a fresh row array: it gets the next unused reference. -/
def Heap.alloc (h : Heap) (row : List Int) : Heap × Nat :=
  (⟨h.store ++ [row]⟩, h.store.length)

/-- Overwriting the row array named by `ref` (a mutation such as the
`Level` constructor's `grid[r][c] = 0` does to its row). -/
def Heap.write (h : Heap) (ref : Nat) (row : List Int) : Heap :=
  ⟨h.store.set ref row⟩

/-- `copyGrid` (sketch.js lines 96–106): `grid.map((row) => row.slice())`
— a new outer list whose rows are fresh copies of the originals. -/
def copyGrid : Heap → List Nat → Heap × List Nat
  | h, [] => (h, [])
  | h, ref :: rest =>
    let p := h.alloc (h.read ref)
    let q := copyGrid p.1 rest
    (q.1, p.2 :: q.2)

/-- Allocation preserves the contents of every previously valid reference. -/
theorem Heap.read_alloc_old (h : Heap) (row : List Int) (ref : Nat)
    (href : ref < h.store.length) :
    (h.alloc row).1.read ref = h.read ref := by
  simp [Heap.alloc, Heap.read, List.getD]
  rw [List.getElem?_append_left href]

/-- Reading a freshly allocated reference yields the stored row. -/
theorem Heap.read_alloc_new (h : Heap) (row : List Int) :
    (h.alloc row).1.read (h.alloc row).2 = row := by
  simp [Heap.alloc, Heap.read, List.getD, List.getElem?_concat_length]

/-- `copyGrid` only grows the store. -/
theorem copyGrid_store_mono (g : List Nat) (h : Heap) :
    h.store.length ≤ (copyGrid h g).1.store.length := by
  induction g generalizing h with
  | nil => exact Nat.le_refl _
  | cons ref rest ih =>
    have step := ih (h.alloc (h.read ref)).1
    simp [Heap.alloc] at step
    simpa [copyGrid] using Nat.le_trans (Nat.le_succ _) step

/-- `copyGrid` does not disturb any previously valid reference. -/
theorem copyGrid_read_old (g : List Nat) (h : Heap) (ref : Nat)
    (href : ref < h.store.length) :
    (copyGrid h g).1.read ref = h.read ref := by
  induction g generalizing h with
  | nil => rfl
  | cons r0 rest ih =>
    have h1 : ref < (h.alloc (h.read r0)).1.store.length := by
      simp [Heap.alloc]
      exact Nat.lt_succ_of_lt href
    calc (copyGrid h (r0 :: rest)).1.read ref
        = (copyGrid (h.alloc (h.read r0)).1 rest).1.read ref := rfl
      _ = (h.alloc (h.read r0)).1.read ref := ih _ h1
      _ = h.read ref := Heap.read_alloc_old h _ ref href

/-- Every reference handed out by `copyGrid` is fresh: at least as large
as the size of the store it started from. -/
theorem copyGrid_refs_fresh (g : List Nat) (h : Heap) :
    ∀ nr ∈ (copyGrid h g).2, h.store.length ≤ nr := by
  induction g generalizing h with
  | nil => intro nr hnr; cases hnr
  | cons r0 rest ih =>
    intro nr hnr
    simp only [copyGrid, List.mem_cons] at hnr
    rcases hnr with hnr | hnr
    · rw [hnr]
      exact Nat.le_refl _
    · have step := ih (h.alloc (h.read r0)).1 nr hnr
      simp [Heap.alloc] at step
      exact Nat.le_trans (Nat.le_succ _) step

/-- A `Forall₂` can be weakened pointwise, with membership of the right
list available. -/
theorem forall₂_mem_imp {α β : Type} {R S : α → β → Prop} {l1 : List α}
    {l2 : List β} (h : List.Forall₂ R l1 l2)
    (himp : ∀ a b, b ∈ l2 → R a b → S a b) : List.Forall₂ S l1 l2 := by
  induction h with
  | nil => exact List.Forall₂.nil
  | cons hab htail ih =>
    refine List.Forall₂.cons (himp _ _ (List.mem_cons_self _ _) hab) (ih ?_)
    intro a b hb hr
    exact himp a b (List.mem_cons_of_mem _ hb) hr

/-- The copy is elementwise equal to the original: read through the final
heap, each fresh row holds the same contents as the corresponding
original row held before the copy. -/
theorem copyGrid_reads_eq (g : List Nat) (h : Heap)
    (hv : ∀ ref ∈ g, ref < h.store.length) :
    List.Forall₂ (fun nr ref => (copyGrid h g).1.read nr = h.read ref)
      (copyGrid h g).2 g := by
  induction g generalizing h with
  | nil => exact List.Forall₂.nil
  | cons r0 rest ih =>
    have hr0 : r0 < h.store.length := hv r0 (List.mem_cons_self r0 rest)
    have hv1 : ∀ ref ∈ rest, ref < (h.alloc (h.read r0)).1.store.length := by
      intro ref href
      have := hv ref (List.mem_cons_of_mem r0 href)
      simp [Heap.alloc]
      exact Nat.lt_succ_of_lt this
    refine List.Forall₂.cons ?_ ?_
    · have hfresh : (h.alloc (h.read r0)).2 <
          (h.alloc (h.read r0)).1.store.length := by
        simp [Heap.alloc]
      calc (copyGrid h (r0 :: rest)).1.read (h.alloc (h.read r0)).2
          = (h.alloc (h.read r0)).1.read (h.alloc (h.read r0)).2 :=
            copyGrid_read_old rest _ _ hfresh
        _ = h.read r0 := Heap.read_alloc_new h (h.read r0)
    · refine forall₂_mem_imp (ih (h.alloc (h.read r0)).1 hv1) ?_
      intro nr ref hmem hread
      show (copyGrid (h.alloc (h.read r0)).1 rest).1.read nr = h.read ref
      rw [hread]
      exact Heap.read_alloc_old h (h.read r0) ref
        (hv ref (List.mem_cons_of_mem r0 hmem))

/-- Writing one row reference leaves every other reference's contents
unchanged. -/
theorem Heap.read_write_ne (h : Heap) (nr ref : Nat) (row : List Int)
    (hne : nr ≠ ref) : (h.write nr row).read ref = h.read ref := by
  simp [Heap.write, Heap.read, List.getD]
  rw [List.getElem?_set_ne hne]

/-- C9: for every 2D array (a list of valid row references into the heap),
`copyGrid` returns a grid of the same length that is elementwise equal to
the original and shares no row array with it; consequently overwriting any
row of the copy — as the `Level` constructor's start normalization does —
leaves the contents of every row of the original grid unchanged. -/
theorem copyGrid_no_sharing (h : Heap) (g : List Nat)
    (hv : ∀ ref ∈ g, ref < h.store.length) :
    ((copyGrid h g).2.length = g.length) ∧
    (List.Forall₂ (fun nr ref => (copyGrid h g).1.read nr = h.read ref)
      (copyGrid h g).2 g) ∧
    (∀ nr ∈ (copyGrid h g).2, nr ∉ g) ∧
    (∀ nr ∈ (copyGrid h g).2, ∀ row : List Int, ∀ ref ∈ g,
      ((copyGrid h g).1.write nr row).read ref = h.read ref) := by
  have hreads := copyGrid_reads_eq g h hv
  refine ⟨List.Forall₂.length_eq hreads, hreads, ?_, ?_⟩
  · intro nr hnr hmem
    exact absurd (hv nr hmem) (Nat.not_lt.mpr (copyGrid_refs_fresh g h nr hnr))
  · intro nr hnr row ref href
    have h1 : ref < h.store.length := hv ref href
    have h2 : h.store.length ≤ nr := copyGrid_refs_fresh g h nr hnr
    have hne : nr ≠ ref := Nat.ne_of_gt (Nat.lt_of_lt_of_le h1 h2)
    rw [Heap.read_write_ne _ _ _ _ hne]
    exact copyGrid_read_old g h ref h1

/-- Witness for C9 on a concrete heap holding one row `[2]`. -/
theorem copyGrid_no_sharing_witness :
    ((copyGrid ⟨[[2]]⟩ [0]).2.length = ([0] : List Nat).length) ∧
    (List.Forall₂
      (fun nr ref => (copyGrid ⟨[[2]]⟩ [0]).1.read nr = Heap.read ⟨[[2]]⟩ ref)
      (copyGrid ⟨[[2]]⟩ [0]).2 [0]) ∧
    (∀ nr ∈ (copyGrid ⟨[[2]]⟩ [0]).2, nr ∉ ([0] : List Nat)) ∧
    (∀ nr ∈ (copyGrid ⟨[[2]]⟩ [0]).2, ∀ row : List Int,
      ∀ ref ∈ ([0] : List Nat),
      ((copyGrid ⟨[[2]]⟩ [0]).1.write nr row).read ref =
        Heap.read ⟨[[2]]⟩ ref) :=
  copyGrid_no_sharing ⟨[[2]]⟩ [0] (by decide)

end Maze

namespace Maze

/-- What a successful row scan means: the found column is in the scanned
window, it holds tile value 2, and no earlier scanned column does. -/
theorem scanRow_eq_some (row : List Int) (fuel c0 c : Nat)
    (h : scanRow row c0 fuel = some c) :
    c0 ≤ c ∧ c < c0 + fuel ∧ row[c]? = some 2 ∧
      ∀ j, c0 ≤ j → j < c → row[j]? ≠ some 2 := by
  induction fuel generalizing c0 with
  | zero => cases h
  | succ fuel ih =>
    by_cases hc : row[c0]? = some 2
    · have hc0 : c = c0 := by
        simp [scanRow, hc] at h
        omega
      subst hc0
      exact ⟨Nat.le_refl _, by omega, hc, fun j hj1 hj2 => by omega⟩
    · have h2 : scanRow row (c0 + 1) fuel = some c := by
        simpa [scanRow, hc] using h
      obtain ⟨ha, hb, hmem, hmin⟩ := ih (c0 + 1) h2
      refine ⟨by omega, by omega, hmem, ?_⟩
      intro j hj1 hj2
      by_cases hj0 : j = c0
      · rw [hj0]
        exact hc
      · exact hmin j (by omega) hj2

/-- What an exhausted row scan means: no scanned column holds tile
value 2. -/
theorem scanRow_eq_none (row : List Int) (fuel c0 : Nat)
    (h : scanRow row c0 fuel = none) :
    ∀ j, c0 ≤ j → j < c0 + fuel → row[j]? ≠ some 2 := by
  induction fuel generalizing c0 with
  | zero => intro j h1 h2; omega
  | succ fuel ih =>
    intro j h1 h2
    by_cases hc : row[c0]? = some 2
    · simp [scanRow, hc] at h
    · have h3 : scanRow row (c0 + 1) fuel = none := by
        simpa [scanRow, hc] using h
      by_cases hj0 : j = c0
      · rw [hj0]
        exact hc
      · exact ih (c0 + 1) h3 j (by omega) (by omega)

/-- What a successful grid scan means: the hit is in row `r0 + i` for some
stored row `i`, that row's scan succeeds, and every earlier row's scan is
exhausted. -/
theorem findStartFrom_eq_some (cols : Nat) (rows : Grid) (r0 r c : Nat)
    (h : findStartFrom cols rows r0 = some (r, c)) :
    ∃ i, r = r0 + i ∧ ∃ row, rows[i]? = some row ∧
      scanRow row 0 cols = some c ∧
      ∀ j, j < i → ∀ row2, rows[j]? = some row2 →
        scanRow row2 0 cols = none := by
  induction rows generalizing r0 with
  | nil => cases h
  | cons row0 rest ih =>
    cases hscan : scanRow row0 0 cols with
    | some c1 =>
      have hrc : r0 = r ∧ c1 = c := by
        simp [findStartFrom, hscan] at h
        exact h
      refine ⟨0, by omega, row0, by simp, ?_, ?_⟩
      · rw [hrc.2] at hscan
        exact hscan
      · intro j hj row2 hrow2
        omega
    | none =>
      have h2 : findStartFrom cols rest (r0 + 1) = some (r, c) := by
        simpa [findStartFrom, hscan] using h
      obtain ⟨i, hi, row, hrow, hrowscan, hmin⟩ := ih (r0 + 1) h2
      refine ⟨i + 1, by omega, row, by simpa using hrow, hrowscan, ?_⟩
      intro j hj row2 hrow2
      cases j with
      | zero =>
        have : row2 = row0 := by
          simpa using hrow2.symm
        rw [this]
        exact hscan
      | succ j2 =>
        exact hmin j2 (by omega) row2 (by simpa using hrow2)

/-- What an exhausted grid scan means: every stored row's scan is
exhausted. -/
theorem findStartFrom_eq_none (cols : Nat) (rows : Grid) (r0 : Nat)
    (h : findStartFrom cols rows r0 = none) :
    ∀ (i : Nat) (row : List Int), rows[i]? = some row →
      scanRow row 0 cols = none := by
  induction rows generalizing r0 with
  | nil => intro i row hrow; cases hrow
  | cons row0 rest ih =>
    intro i row hrow
    cases hscan : scanRow row0 0 cols with
    | some c1 => simp [findStartFrom, hscan] at h
    | none =>
      have h2 : findStartFrom cols rest (r0 + 1) = none := by
        simpa [findStartFrom, hscan] using h
      cases i with
      | zero =>
        have : row = row0 := by simpa using hrow.symm
        rw [this]
        exact hscan
      | succ i2 =>
        exact ih (r0 + 1) h2 i2 row (by simpa using hrow)

end Maze

namespace Maze

/-- Rectangularity is decidable, so witnesses can be checked by `decide`. -/
instance instDecidableRect (g : Grid) : Decidable (Rect g) :=
  inferInstanceAs (Decidable (∀ row ∈ g, row.length = (g.headD []).length))

/-- Unfolding a successful `cellAt`: the row exists and holds the value. -/
theorem cellAt_eq_some (g : Grid) (r c : Nat) (v : Int)
    (h : cellAt g r c = some v) :
    ∃ row, g[r]? = some row ∧ row[c]? = some v := by
  rcases hh : g[r]? with _ | row
  · simp [cellAt, hh] at h
  · exact ⟨row, rfl, by simpa [cellAt, hh] using h⟩

/-- A successful `findStart` lands on a stored cell holding tile value 2. -/
theorem findStart_cell (g : Grid) (r c : Nat)
    (h : findStart g = some (r, c)) :
    ∃ row, g[r]? = some row ∧ row[c]? = some 2 ∧ r < g.length ∧
      c < row.length := by
  obtain ⟨i, hi, row, hrow, hscan, hmin⟩ :=
    findStartFrom_eq_some (g.headD []).length g 0 r c h
  have hir : i = r := by omega
  subst hir
  obtain ⟨_, _, hcell, _⟩ := scanRow_eq_some row _ 0 c hscan
  have hrlen : i < g.length := by
    obtain ⟨hlt, _⟩ := List.getElem?_eq_some_iff.mp hrow
    exact hlt
  have hclen : c < row.length := by
    obtain ⟨hlt, _⟩ := List.getElem?_eq_some_iff.mp hcell
    exact hlt
  exact ⟨row, hrow, hcell, hrlen, hclen⟩

/-- The cell a successful `findStart` returns holds tile value 2. -/
theorem findStart_some_two (g : Grid) (r c : Nat)
    (h : findStart g = some (r, c)) : cellAt g r c = some 2 := by
  obtain ⟨row, hrow, hcell, _, _⟩ := findStart_cell g r c h
  simp [cellAt, hrow, hcell]

/-- On a rectangular grid, an exhausted `findStart` means no cell holds
tile value 2. -/
theorem findStart_none_no_two (g : Grid) (hg : Rect g)
    (h : findStart g = none) : ∀ (r c : Nat), cellAt g r c ≠ some 2 := by
  intro r c hcell
  obtain ⟨row, hrow, hc⟩ := cellAt_eq_some g r c 2 hcell
  have hscan : scanRow row 0 (g.headD []).length = none :=
    findStartFrom_eq_none (g.headD []).length g 0 h r row hrow
  have hclen : c < row.length := by
    obtain ⟨hlt, _⟩ := List.getElem?_eq_some_iff.mp hc
    exact hlt
  have hcols : c < (g.headD []).length :=
    hg row (List.getElem?_mem hrow) ▸ hclen
  exact scanRow_eq_none row _ 0 hscan c (Nat.zero_le _) (by omega) hc

/-- C1: on a (rectangular 2D) grid, `findStart` returns the first cell
holding tile value 2 in row-major scan order, `none` exactly when no cell
holds 2, and the unique start cell when there is exactly one. -/
theorem findStart_first_in_row_major (g : Grid) (hg : Rect g) :
    (∀ (r c : Nat), findStart g = some (r, c) →
      cellAt g r c = some 2 ∧
      ∀ (r2 c2 : Nat), (r2 < r ∨ (r2 = r ∧ c2 < c)) →
        cellAt g r2 c2 ≠ some 2) ∧
    (findStart g = none ↔ ∀ (r c : Nat), cellAt g r c ≠ some 2) ∧
    (∀ (r c : Nat), cellAt g r c = some 2 →
      (∀ (r2 c2 : Nat), cellAt g r2 c2 = some 2 → r2 = r ∧ c2 = c) →
      findStart g = some (r, c)) := by
  refine ⟨?_, ⟨findStart_none_no_two g hg, ?_⟩, ?_⟩
  · intro r c h
    obtain ⟨i, hi, row, hrow, hscan, hmin⟩ :=
      findStartFrom_eq_some (g.headD []).length g 0 r c h
    have hir : i = r := by omega
    subst hir
    obtain ⟨_, _, hcell, hmincol⟩ := scanRow_eq_some row _ 0 c hscan
    refine ⟨by simp [cellAt, hrow, hcell], ?_⟩
    intro r2 c2 hlt hcell2
    obtain ⟨row2, hrow2, hc2⟩ := cellAt_eq_some g r2 c2 2 hcell2
    rcases hlt with hlt | ⟨heq, hlt⟩
    · have hscan2 : scanRow row2 0 (g.headD []).length = none :=
        hmin r2 (by omega) row2 hrow2
      have hc2len : c2 < row2.length := by
        obtain ⟨hlt2, _⟩ := List.getElem?_eq_some_iff.mp hc2
        exact hlt2
      have hc2cols : c2 < (g.headD []).length :=
        hg row2 (List.getElem?_mem hrow2) ▸ hc2len
      exact scanRow_eq_none row2 _ 0 hscan2 c2 (Nat.zero_le _)
        (by omega) hc2
    · subst heq
      have hrr : row2 = row := by
        rw [hrow] at hrow2
        exact (Option.some_inj.mp hrow2).symm
      exact hmincol c2 (Nat.zero_le _) hlt (hrr ▸ hc2)
  · intro hno
    cases hfs : findStart g with
    | none => rfl
    | some rc =>
      exact absurd (findStart_some_two g rc.1 rc.2 (by simpa using hfs))
        (hno rc.1 rc.2)
  · intro r c hcell huniq
    cases hfs : findStart g with
    | none => exact absurd hcell (findStart_none_no_two g hg hfs r c)
    | some rc =>
      obtain ⟨a, b⟩ := rc
      obtain ⟨h1, h2⟩ := huniq a b (findStart_some_two g a b hfs)
      rw [h1, h2]

/-- Witness for C1: on a concrete rectangular grid whose only 2 sits at
row 1, column 1, the returned cell holds 2 and nothing earlier does. -/
theorem findStart_first_in_row_major_witness :
    cellAt ([[0, 0], [0, 2]] : Grid) 1 1 = some 2 ∧
    ∀ (r2 c2 : Nat), (r2 < 1 ∨ (r2 = 1 ∧ c2 < 1)) →
      cellAt ([[0, 0], [0, 2]] : Grid) r2 c2 ≠ some 2 :=
  (findStart_first_in_row_major ([[0, 0], [0, 2]] : Grid) (by decide)).1 1 1
    (by decide)

end Maze

namespace Maze

/-- C6: on a (rectangular 2D) grid, every in-bounds cell is stored, so
`tileAt` succeeds there, and `isWall` / `isGoal` answer exactly whether
the stored tile code is 1 / 3. -/
theorem tile_queries_in_bounds (l : Level) (r c : Int) (hg : Rect l.grid)
    (h : l.inBounds r c = true) :
    ∃ v : Int, l.tileAt r c = some v ∧
      (l.isWall r c = true ↔ v = 1) ∧ (l.isGoal r c = true ↔ v = 3) := by
  obtain ⟨⟨hr0, hrlen⟩, hc0, hclen⟩ := (inBounds_iff l r c).mp h
  have hrnat : r.toNat < l.grid.length := by omega
  obtain ⟨row, hrow⟩ : ∃ row, l.grid[r.toNat]? = some row :=
    ⟨_, List.getElem?_eq_getElem hrnat⟩
  have hrowlen : row.length = (l.grid.headD []).length :=
    hg row (List.getElem?_mem hrow)
  have hcnat : c.toNat < row.length := by rw [hrowlen]; omega
  obtain ⟨v, hv⟩ : ∃ v, row[c.toNat]? = some v :=
    ⟨_, List.getElem?_eq_getElem hcnat⟩
  refine ⟨v, ?_, ?_, ?_⟩
  · simp [Level.tileAt, hr0, hc0, cellAt, hrow, hv]
  · simp [Level.isWall, Level.tileAt, hr0, hc0, cellAt, hrow, hv]
  · simp [Level.isGoal, Level.tileAt, hr0, hc0, cellAt, hrow, hv]

/-- Witness for C6 on a concrete level whose cell (0, 0) is a wall. -/
theorem tile_queries_in_bounds_witness :
    ∃ v : Int, (Level.make [[1, 0], [0, 3]] 32).tileAt 0 0 = some v ∧
      ((Level.make [[1, 0], [0, 3]] 32).isWall 0 0 = true ↔ v = 1) ∧
      ((Level.make [[1, 0], [0, 3]] 32).isGoal 0 0 = true ↔ v = 3) :=
  tile_queries_in_bounds (Level.make [[1, 0], [0, 3]] 32) 0 0
    (by decide) (by decide)

/-- C8: after construction, a discovered start cell stores tile value 0
(floor), so it is neither wall nor goal and no longer holds value 2. -/
theorem make_normalizes_start (g : Grid) (ts : Int) (r c : Nat)
    (h : (Level.make g ts).start = some (r, c)) :
    cellAt (Level.make g ts).grid r c = some 0 ∧
    (Level.make g ts).isWall (r : Int) (c : Int) = false ∧
    (Level.make g ts).isGoal (r : Int) (c : Int) = false ∧
    cellAt (Level.make g ts).grid r c ≠ some 2 := by
  have hfs : findStart g = some (r, c) := h
  obtain ⟨row, hrow, hcell, hr, hclen⟩ := findStart_cell g r c hfs
  have hgrid : (Level.make g ts).grid = g.set r ((g.getD r []).set c 0) := by
    simp [Level.make, normalizeStart, hfs]
  have hgetD : g.getD r [] = row := by simp [hrow]
  have hcellnew : cellAt (Level.make g ts).grid r c = some 0 := by
    rw [hgrid, hgetD]
    have h1 : (g.set r (row.set c 0))[r]? = some (row.set c 0) :=
      List.getElem?_set_self (by simpa using hr)
    have h2 : (row.set c 0)[c]? = some 0 :=
      List.getElem?_set_self (by simpa using hclen)
    simp [cellAt, h1, h2]
  refine ⟨hcellnew, ?_, ?_, ?_⟩
  · simp [Level.isWall, Level.tileAt, hcellnew]
  · simp [Level.isGoal, Level.tileAt, hcellnew]
  · rw [hcellnew]
    simp

/-- Witness for C8 on a concrete grid whose single cell is the start. -/
theorem make_normalizes_start_witness :
    cellAt (Level.make [[2]] 1).grid 0 0 = some 0 ∧
    (Level.make [[2]] 1).isWall ((0 : Nat) : Int) ((0 : Nat) : Int) = false ∧
    (Level.make [[2]] 1).isGoal ((0 : Nat) : Int) ((0 : Nat) : Int) = false ∧
    cellAt (Level.make [[2]] 1).grid 0 0 ≠ some 2 :=
  make_normalizes_start [[2]] 1 0 0 (by decide)

end Maze
